import Mathlib

/-!
Verification development for the `wtg` session recorder.

The definitions below are a shallow embedding of the Rust sources:
  * `src/cli.rs`    — the `NEW_COMMAND_MSG` sentinel constant;
  * `src/errors.rs` — the `WtgError` taxonomy;
  * `src/session.rs` — the raw-mode guard, window-size query, the
    input-forwarder / boundary-listener / output-relay concurrency
    protocol of `run_session`, `get_log_content`,
    `extract_context_from_log` and `run_query`.

Strings are modelled as `List Char` (the log content after the lossy
UTF-8 decode of `get_log_content`); `str::rfind` index arithmetic is
modelled at the character level, which agrees with Rust's byte indices
on the ASCII sentinel and newline searches performed by the code.
-/

namespace Wtg

/-- `cli.rs`: `pub const NEW_COMMAND_MSG: &str = "<<<wtg:cmd-end>>>";` -/
def NEW_COMMAND_MSG : List Char := "<<<wtg:cmd-end>>>".data

/-- `errors.rs`: the `WtgError` enum (payloads kept for the variants the
claims mention). -/
inductive WtgError where
  | NoCommandRun (logfile : List Char)
  | ChatNotTty
  | NixError
  | LogFileOpenError (logfile : List Char)
  | StdioError
deriving DecidableEq

/-- Rust `str::rfind` restricted to start positions `≤ n`: the largest
`i ≤ n` such that `pat` occurs at `i` in `s`. -/
def rfindFrom (pat s : List Char) : Nat → Option Nat
  | 0 => if pat.isPrefixOf s then some 0 else none
  | n + 1 =>
    if pat.isPrefixOf (s.drop (n + 1)) then some (n + 1) else rfindFrom pat s n

/-- Rust `str::rfind(pat)`: index of the start of the last occurrence of
`pat` in `s`. -/
def rfind (pat s : List Char) : Option Nat :=
  rfindFrom pat s s.length

/-- Rust `str::replace(NEW_COMMAND_MSG, "")`, fuel-indexed so that it is
structurally recursive (the fuel `s.length` always suffices: every step
consumes at least one character). -/
def removeMarkerFuel : Nat → List Char → List Char
  | 0, s => s
  | _ + 1, [] => []
  | fuel + 1, a :: rest =>
    if NEW_COMMAND_MSG.isPrefixOf (a :: rest) then
      removeMarkerFuel fuel ((a :: rest).drop NEW_COMMAND_MSG.length)
    else
      a :: removeMarkerFuel fuel rest

/-- `session.rs` line 270: strip every sentinel token from the context. -/
def removeMarker (s : List Char) : List Char :=
  removeMarkerFuel s.length s

/-- `session.rs` `extract_context_from_log`, lines 246-271 (the pure part,
operating on the already-read log content). -/
def extract_context_from_content (logfile log_content : List Char) :
    Except WtgError (List Char) :=
  match rfind NEW_COMMAND_MSG log_content with
  | none => .error (.NoCommandRun logfile)
  | some last_idx =>
    let last_line_start :=
      ((rfind ['\n'] (log_content.take last_idx)).map (· + 1)).getD 0
    match rfind NEW_COMMAND_MSG (log_content.take last_idx) with
    | none => .error (.NoCommandRun logfile)
    | some second_to_last_idx =>
      let second_to_last_line_start :=
        ((rfind ['\n'] (log_content.take second_to_last_idx)).map (· + 1)).getD 0
      .ok (removeMarker
        ((log_content.take last_line_start).drop second_to_last_line_start))

/-! ### Characterisation of `rfind` -/

/-- `pat` occurs in `s` starting at position `i`. -/
def OccursAt (pat s : List Char) (i : Nat) : Prop :=
  pat <+: s.drop i

instance (pat s : List Char) (i : Nat) : Decidable (OccursAt pat s i) :=
  inferInstanceAs (Decidable (pat <+: s.drop i))

lemma occursAt_add_length_le {pat s : List Char} {i : Nat} (hpat : pat ≠ [])
    (h : OccursAt pat s i) : i + pat.length ≤ s.length := by
  have h1 : pat.length ≤ (s.drop i).length := h.length_le
  rw [List.length_drop] at h1
  have h2 : 0 < pat.length := List.length_pos.mpr hpat
  omega

lemma rfindFrom_some {pat s : List Char} {n i : Nat}
    (h : rfindFrom pat s n = some i) :
    i ≤ n ∧ OccursAt pat s i ∧ ∀ j, i < j → j ≤ n → ¬ OccursAt pat s j := by
  induction n with
  | zero =>
    rw [rfindFrom] at h
    by_cases hp : pat.isPrefixOf s
    · simp [hp] at h
      subst h
      exact ⟨le_refl 0, List.isPrefixOf_iff_prefix.mp hp, by omega⟩
    · simp [hp] at h
  | succ n ih =>
    rw [rfindFrom] at h
    by_cases hp : pat.isPrefixOf (s.drop (n + 1))
    · simp [hp] at h
      subst h
      refine ⟨le_refl _, List.isPrefixOf_iff_prefix.mp hp, ?_⟩
      intro j hj hj'
      omega
    · simp [hp] at h
      obtain ⟨h1, h2, h3⟩ := ih h
      refine ⟨by omega, h2, ?_⟩
      intro j hj hj'
      rcases Nat.lt_or_ge j (n + 1) with hlt | hge
      · exact h3 j hj (by omega)
      · have : j = n + 1 := by omega
        subst this
        intro hocc
        exact hp ( List.isPrefixOf_iff_prefix.mpr hocc)

lemma rfindFrom_none {pat s : List Char} {n : Nat}
    (h : rfindFrom pat s n = none) :
    ∀ j, j ≤ n → ¬ OccursAt pat s j := by
  induction n with
  | zero =>
    rw [rfindFrom] at h
    by_cases hp : pat.isPrefixOf s
    · simp [hp] at h
    · intro j hj
      have : j = 0 := by omega
      subst this
      intro hocc
      exact hp ( List.isPrefixOf_iff_prefix.mpr (by simpa [OccursAt] using hocc))
  | succ n ih =>
    rw [rfindFrom] at h
    by_cases hp : pat.isPrefixOf (s.drop (n + 1))
    · simp [hp] at h
    · simp [hp] at h
      intro j hj
      rcases Nat.lt_or_ge j (n + 1) with hlt | hge
      · exact ih h j (by omega)
      · have : j = n + 1 := by omega
        subst this
        intro hocc
        exact hp ( List.isPrefixOf_iff_prefix.mpr hocc)

lemma rfind_eq_some_of {pat s : List Char} {i : Nat} (hpat : pat ≠ [])
    (hocc : OccursAt pat s i) (hmax : ∀ j, i < j → ¬ OccursAt pat s j) :
    rfind pat s = some i := by
  rcases h : rfind pat s with _ | i'
  · exfalso
    have hi : i + pat.length ≤ s.length := occursAt_add_length_le hpat hocc
    exact rfindFrom_none h i (by omega) hocc
  · obtain ⟨_, hocc', hmax'⟩ := rfindFrom_some h
    congr
    by_contra hne
    rcases Nat.lt_or_ge i i' with hlt | hge
    · exact hmax i' hlt hocc'
    · have hlt : i' < i := by omega
      have hi : i + pat.length ≤ s.length := occursAt_add_length_le hpat hocc
      exact hmax' i hlt (by omega) hocc

lemma rfind_eq_none_of {pat s : List Char}
    (h : ∀ j, ¬ OccursAt pat s j) : rfind pat s = none := by
  rcases heq : rfind pat s with _ | i
  · rfl
  · exact absurd (rfindFrom_some heq).2.1 (h i)

lemma occursAt_singleton {c : Char} {s : List Char} {i : Nat} :
    OccursAt [c] s i ↔ s[i]? = some c := by
  have hidx : s[i]? = (s.drop i)[0]? := by
    rw [List.getElem?_drop]
    norm_num
  rw [OccursAt, hidx]
  rcases hd : s.drop i with _ | ⟨a, t⟩
  · simp
  · simp [List.cons_prefix_cons]
    exact comm

lemma occursAt_take_iff {pat s : List Char} {m i : Nat} (hpat : pat ≠ []) :
    OccursAt pat (s.take m) i ↔ OccursAt pat s i ∧ i + pat.length ≤ m := by
  have hdt : (s.take m).drop i = (s.drop i).take (m - i) := List.drop_take m i s
  constructor
  · intro h
    rw [OccursAt, hdt] at h
    have hlen : pat.length ≤ ((s.drop i).take (m - i)).length := h.length_le
    rw [List.length_take] at hlen
    have hpos : 0 < pat.length := List.length_pos.mpr hpat
    have hbound : i + pat.length ≤ m := by
      rcases Nat.le_total (m - i) (s.drop i).length with hle | hle
      · rw [min_eq_left hle] at hlen; omega
      · rw [min_eq_right hle] at hlen
        rw [List.length_drop] at hle hlen
        omega
    exact ⟨h.trans ( List.take_prefix _ _), hbound⟩
  · rintro ⟨hocc, hbound⟩
    rw [OccursAt, hdt]
    rw [OccursAt, List.prefix_iff_eq_take] at hocc
    rw [List.prefix_iff_eq_take, List.take_take]
    rw [min_eq_left (by omega)]
    exact hocc

/-! ### The sentinel marker cannot overlap itself -/

lemma marker_ne_nil : NEW_COMMAND_MSG ≠ [] := by decide

lemma marker_length : NEW_COMMAND_MSG.length = 17 := by decide

lemma marker_no_border : ∀ d < 17, 0 < d →
    NEW_COMMAND_MSG.drop d ≠ NEW_COMMAND_MSG.take (17 - d) := by decide

lemma marker_no_overlap {s : List Char} {j i : Nat}
    (hj : OccursAt NEW_COMMAND_MSG s j) (hi : OccursAt NEW_COMMAND_MSG s i)
    (hji : j < i) : j + NEW_COMMAND_MSG.length ≤ i := by
  by_contra hlt
  push_neg at hlt
  set d := i - j with hd
  have hdpos : 0 < d := by omega
  have hdlt : d < 17 := by rw [hd]; have := marker_length; omega
  obtain ⟨t, ht⟩ := hj
  have hdi : s.drop i = NEW_COMMAND_MSG.drop d ++ t := by
    have h1 : s.drop i = (s.drop j).drop d := by
      rw [List.drop_drop]; congr 1; omega
    rw [h1, ← ht, List.drop_append_of_le_length (by rw [marker_length]; omega)]
  rw [OccursAt, hdi] at hi
  have hpre : NEW_COMMAND_MSG.drop d <+: NEW_COMMAND_MSG :=
    List.prefix_of_prefix_length_le (List.prefix_append _ _) hi
      (by rw [List.length_drop]; omega)
  have heq := List.prefix_iff_eq_take.mp hpre
  rw [List.length_drop, marker_length] at heq
  exact marker_no_border d hdlt hdpos heq

/-! ### Line starts, as computed by `extract_context_from_log` -/

/-- `log_content[..i].rfind(of_newline).map(i+1).unwrap_or(0)` computes the
declaratively characterised start of the line containing position `i`. -/
lemma lineStart_eq (s : List Char) (i ls : Nat)
    (h1 : ls ≤ i) (h2 : ls = 0 ∨ s[ls - 1]? = some '\n')
    (h3 : ∀ k < i, ls ≤ k → s[k]? ≠ some '\n') :
    ((rfind ['\n'] (s.take i)).map (· + 1)).getD 0 = ls := by
  rcases Nat.eq_zero_or_pos ls with hls | hls
  · subst hls
    have hnone : rfind ['\n'] (s.take i) = none := by
      apply rfind_eq_none_of
      intro k hocc
      rw [occursAt_take_iff (by simp)] at hocc
      obtain ⟨hoccs, hb⟩ := hocc
      rw [occursAt_singleton] at hoccs
      simp at hb
      exact h3 k (by omega) (Nat.zero_le _) hoccs
    rw [hnone]
    rfl
  · have h2' : s[ls - 1]? = some '\n' := by
      rcases h2 with h2 | h2
      · omega
      · exact h2
    have hsome : rfind ['\n'] (s.take i) = some (ls - 1) := by
      apply rfind_eq_some_of (by simp)
      · rw [occursAt_take_iff (by simp), occursAt_singleton]
        refine ⟨h2', ?_⟩
        simp
        omega
      · intro k hk hocc
        rw [occursAt_take_iff (by simp)] at hocc
        obtain ⟨hoccs, hb⟩ := hocc
        rw [occursAt_singleton] at hoccs
        simp at hb
        exact h3 k (by omega) (by omega) hoccs
    rw [hsome]
    simp
    omega

/-! ### Counting marker occurrences -/

/-- Number of positions at which the sentinel marker occurs in the log. -/
def markerCount (log : List Char) : Nat :=
  (List.range log.length).countP
    (fun k => NEW_COMMAND_MSG.isPrefixOf (log.drop k))

lemma markerCount_pred {log : List Char} {k : Nat} :
    (NEW_COMMAND_MSG.isPrefixOf (log.drop k)) = true ↔
      OccursAt NEW_COMMAND_MSG log k :=
  List.isPrefixOf_iff_prefix

lemma two_le_length_of_two_mem {l : List Nat} {a b : Nat}
    (ha : a ∈ l) (hb : b ∈ l) (hne : a ≠ b) : 2 ≤ l.length := by
  rcases l with _ | ⟨x, _ | ⟨y, t⟩⟩
  · simp at ha
  · simp at ha hb
    subst ha
    subst hb
    exact absurd rfl hne
  · simp only [List.length_cons]
    omega

instance exceptDecEq {ε α : Type _} [DecidableEq ε] [DecidableEq α] :
    DecidableEq (Except ε α) := fun a b =>
  match a, b with
  | .error e₁, .error e₂ =>
    if h : e₁ = e₂ then .isTrue (by rw [h])
    else .isFalse (fun he => by cases he; exact h rfl)
  | .ok a₁, .ok a₂ =>
    if h : a₁ = a₂ then .isTrue (by rw [h])
    else .isFalse (fun he => by cases he; exact h rfl)
  | .error _, .ok _ => .isFalse (fun he => by cases he)
  | .ok _, .error _ => .isFalse (fun he => by cases he)

/-! ### Claim C2 -/

/-- C2 counterexample: on the log content `A<MARK>BBBB<MARK>CCCC` (which
contains no newline) the extractor returns the empty string, not `BBBB`:
both "start of the line containing the marker" computations yield 0, so the
extracted slice is empty. -/
theorem c2_counterexample :
    extract_context_from_content []
        "A<<<wtg:cmd-end>>>BBBB<<<wtg:cmd-end>>>CCCC".data ≠
      Except.ok "BBBB".data
    ∧ extract_context_from_content []
        "A<<<wtg:cmd-end>>>BBBB<<<wtg:cmd-end>>>CCCC".data =
      Except.ok [] := by
  constructor
  · decide
  · decide

/-- C2 (amended): for every log text containing at least two marker
occurrences, the extractor returns the text from the start of the line
containing the second-to-last marker up to the start of the line containing
the last marker, with all marker tokens stripped. Here `i` is the last
occurrence, `j` the occurrence before it, and `li`/`lj` the starts of the
lines containing them (`li = 0` or preceded by a newline, with no newline
strictly between `li`/`lj` and the corresponding marker). -/
theorem c2_amended_extract (logfile log : List Char) (i j li lj : Nat)
    (hi : OccursAt NEW_COMMAND_MSG log i)
    (himax : ∀ k < log.length, OccursAt NEW_COMMAND_MSG log k → k ≤ i)
    (hj : OccursAt NEW_COMMAND_MSG log j)
    (hji : j < i)
    (hjmax : ∀ k < log.length, OccursAt NEW_COMMAND_MSG log k → k < i → k ≤ j)
    (hli1 : li ≤ i) (hli2 : li = 0 ∨ log[li - 1]? = some '\n')
    (hli3 : ∀ k < i, li ≤ k → log[k]? ≠ some '\n')
    (hlj1 : lj ≤ j) (hlj2 : lj = 0 ∨ log[lj - 1]? = some '\n')
    (hlj3 : ∀ k < j, lj ≤ k → log[k]? ≠ some '\n') :
    extract_context_from_content logfile log =
      Except.ok (removeMarker ((log.take li).drop lj)) := by
  have hilen : i + 17 ≤ log.length := by
    have := occursAt_add_length_le marker_ne_nil hi
    rwa [marker_length] at this
  have h1 : rfind NEW_COMMAND_MSG log = some i := by
    apply rfind_eq_some_of marker_ne_nil hi
    intro k hk hocc
    have hklen : k + 17 ≤ log.length := by
      have := occursAt_add_length_le marker_ne_nil hocc
      rwa [marker_length] at this
    have := himax k (by omega) hocc
    omega
  have hoverlap : j + 17 ≤ i := by
    have := marker_no_overlap hj hi hji
    rwa [marker_length] at this
  have h3 : rfind NEW_COMMAND_MSG (log.take i) = some j := by
    apply rfind_eq_some_of marker_ne_nil
    · rw [occursAt_take_iff marker_ne_nil, marker_length]
      exact ⟨hj, hoverlap⟩
    · intro k hk hocc
      rw [occursAt_take_iff marker_ne_nil, marker_length] at hocc
      obtain ⟨hoccs, hb⟩ := hocc
      have := hjmax k (by omega) hoccs (by omega)
      omega
  have h2 := lineStart_eq log i li hli1 hli2 hli3
  have h4 := lineStart_eq log j lj hlj1 hlj2 hlj3
  simp only [extract_context_from_content, h1, h2, h3, h4]

/-- C2 witness: on the log `A\n<MARK>BBBB\n<MARK>CCCC` the last marker
starts at 24, the previous one at 2, their line starts are 24 and 2, and
the extractor returns exactly the slice between the two line starts with
the marker stripped (which is `BBBB\n`). -/
theorem c2_witness :
    OccursAt NEW_COMMAND_MSG "A\n<<<wtg:cmd-end>>>BBBB\n<<<wtg:cmd-end>>>CCCC".data 24
    ∧ OccursAt NEW_COMMAND_MSG "A\n<<<wtg:cmd-end>>>BBBB\n<<<wtg:cmd-end>>>CCCC".data 2
    ∧ extract_context_from_content []
        "A\n<<<wtg:cmd-end>>>BBBB\n<<<wtg:cmd-end>>>CCCC".data =
      Except.ok (removeMarker
        (("A\n<<<wtg:cmd-end>>>BBBB\n<<<wtg:cmd-end>>>CCCC".data.take 24).drop 2))
    ∧ removeMarker
        (("A\n<<<wtg:cmd-end>>>BBBB\n<<<wtg:cmd-end>>>CCCC".data.take 24).drop 2) =
      "BBBB\n".data :=
  ⟨by decide, by decide,
    c2_amended_extract [] _ 24 2 24 2 (by decide)
      (by decide) (by decide) (by decide) (by decide)
      (by decide) (by decide) (by decide)
      (by decide) (by decide) (by decide),
    by decide⟩

/-! ### Claim C3 -/

/-- C3: the extractor fails with `NoCommandRun` if and only if the log text
contains fewer than two occurrences of the sentinel marker; being an
`Except.error`, a failure carries no context string. -/
theorem c3_no_command_run_iff (logfile log : List Char) :
    extract_context_from_content logfile log =
      Except.error (WtgError.NoCommandRun logfile) ↔ markerCount log < 2 := by
  rcases h1 : rfind NEW_COMMAND_MSG log with _ | i
  · have hext : extract_context_from_content logfile log =
        Except.error (WtgError.NoCommandRun logfile) := by
      simp only [extract_context_from_content, h1]
    have h1' : rfindFrom NEW_COMMAND_MSG log log.length = none := h1
    have hcount : markerCount log = 0 := by
      rw [markerCount, List.countP_eq_zero]
      intro k hk
      rw [markerCount_pred]
      exact rfindFrom_none h1' k (le_of_lt (List.mem_range.mp hk))
    rw [hext, hcount]
    simp
  · have h1' : rfindFrom NEW_COMMAND_MSG log log.length = some i := h1
    obtain ⟨hile, hiocc, himax⟩ := rfindFrom_some h1'
    have hilen : i + 17 ≤ log.length := by
      have := occursAt_add_length_le marker_ne_nil hiocc
      rwa [marker_length] at this
    rcases h3 : rfind NEW_COMMAND_MSG (log.take i) with _ | j
    · have hext : extract_context_from_content logfile log =
          Except.error (WtgError.NoCommandRun logfile) := by
        simp only [extract_context_from_content, h1, h3]
      have h3' : rfindFrom NEW_COMMAND_MSG (log.take i)
          (log.take i).length = none := h3
      have huniq : ∀ k, OccursAt NEW_COMMAND_MSG log k → k = i := by
        intro k hocc
        have hklen : k + 17 ≤ log.length := by
          have := occursAt_add_length_le marker_ne_nil hocc
          rwa [marker_length] at this
        by_contra hne
        have hki : k < i := by
          rcases Nat.lt_or_ge k i with h | h
          · exact h
          · exact absurd hocc (himax k (by omega) (by omega))
        have hov : k + 17 ≤ i := by
          have := marker_no_overlap hocc hiocc hki
          rwa [marker_length] at this
        have hocc' : OccursAt NEW_COMMAND_MSG (log.take i) k := by
          rw [occursAt_take_iff marker_ne_nil, marker_length]
          exact ⟨hocc, hov⟩
        refine rfindFrom_none h3' k ?_ hocc'
        rw [List.length_take]
        omega
      have hcount : markerCount log = 1 := by
        rw [markerCount]
        have hcongr : ∀ x ∈ List.range log.length,
            (NEW_COMMAND_MSG.isPrefixOf (log.drop x) = true) ↔ ((x == i) = true) := by
          intro x _
          rw [markerCount_pred, beq_iff_eq]
          constructor
          · exact huniq x
          · rintro rfl
            exact hiocc
        rw [List.countP_congr hcongr]
        exact List.count_eq_one_of_mem (List.nodup_range _)
          (List.mem_range.mpr (by omega))
      rw [hext, hcount]
      simp
    · have h3' : rfindFrom NEW_COMMAND_MSG (log.take i)
          (log.take i).length = some j := h3
      obtain ⟨_, hjocc', _⟩ := rfindFrom_some h3'
      rw [occursAt_take_iff marker_ne_nil, marker_length] at hjocc'
      obtain ⟨hjocc, hjb⟩ := hjocc'
      have h2c : 2 ≤ markerCount log := by
        rw [markerCount, List.countP_eq_length_filter]
        refine two_le_length_of_two_mem (a := j) (b := i) ?_ ?_ (by omega)
        · exact List.mem_filter.mpr
            ⟨List.mem_range.mpr (by omega), markerCount_pred.mpr hjocc⟩
        · exact List.mem_filter.mpr
            ⟨List.mem_range.mpr (by omega), markerCount_pred.mpr hiocc⟩
      simp only [extract_context_from_content, h1, h3]
      constructor
      · intro h
        exact Except.noConfusion h
      · intro h
        exact absurd h (by omega)

/-! ### Claim C10: the log-reading pipeline is total -/

/-- U+FFFD, the Unicode replacement character. -/
def replacementChar : Char := Char.ofNat 0xFFFD

/-- UTF-8 continuation byte, `0x80..=0xBF`. -/
def isCont (b : Nat) : Bool := 128 ≤ b && b ≤ 191

/-- Rust `String::from_utf8_lossy`: a *total* UTF-8 decode in which every
maximal ill-formed subsequence is replaced by U+FFFD instead of raising an
error (WHATWG decoding; second-byte ranges restricted for `0xE0`, `0xED`,
`0xF0`, `0xF4` to exclude overlong forms, surrogates and values beyond
U+10FFFF). Fuel-indexed to be structurally recursive; every step consumes
at least one input byte, so fuel `l.length` always suffices. -/
def utf8LossyFuel : Nat → List Nat → List Char
  | 0, _ => []
  | _ + 1, [] => []
  | fuel + 1, b1 :: rest =>
    if b1 < 128 then Char.ofNat b1 :: utf8LossyFuel fuel rest
    else if 194 ≤ b1 && b1 ≤ 223 then
      match rest with
      | [] => [replacementChar]
      | b2 :: r2 =>
        if isCont b2 then
          Char.ofNat ((b1 - 192) * 64 + (b2 - 128)) :: utf8LossyFuel fuel r2
        else replacementChar :: utf8LossyFuel fuel rest
    else if 224 ≤ b1 && b1 ≤ 239 then
      match rest with
      | [] => [replacementChar]
      | b2 :: r2 =>
        if (if b1 = 224 then 160 ≤ b2 && b2 ≤ 191
            else if b1 = 237 then 128 ≤ b2 && b2 ≤ 159
            else isCont b2) then
          match r2 with
          | [] => [replacementChar]
          | b3 :: r3 =>
            if isCont b3 then
              Char.ofNat ((b1 - 224) * 4096 + (b2 - 128) * 64 + (b3 - 128)) ::
                utf8LossyFuel fuel r3
            else replacementChar :: utf8LossyFuel fuel r2
        else replacementChar :: utf8LossyFuel fuel rest
    else if 240 ≤ b1 && b1 ≤ 244 then
      match rest with
      | [] => [replacementChar]
      | b2 :: r2 =>
        if (if b1 = 240 then 144 ≤ b2 && b2 ≤ 191
            else if b1 = 244 then 128 ≤ b2 && b2 ≤ 143
            else isCont b2) then
          match r2 with
          | [] => [replacementChar]
          | b3 :: r3 =>
            if isCont b3 then
              match r3 with
              | [] => [replacementChar]
              | b4 :: r4 =>
                if isCont b4 then
                  Char.ofNat ((b1 - 240) * 262144 + (b2 - 128) * 4096 +
                      (b3 - 128) * 64 + (b4 - 128)) :: utf8LossyFuel fuel r4
                else replacementChar :: utf8LossyFuel fuel r3
            else replacementChar :: utf8LossyFuel fuel r2
        else replacementChar :: utf8LossyFuel fuel rest
    else replacementChar :: utf8LossyFuel fuel rest

/-- Rust `String::from_utf8_lossy` (see `utf8LossyFuel`). -/
def utf8Lossy (l : List Nat) : List Char :=
  utf8LossyFuel l.length l

/-- `session.rs` `get_log_content` (lines 233-241): `File::open` failure is
mapped to `LogFileOpenError`; the raw bytes are decoded lossily.
`openResult` models the outcome of `File::open` + `read_to_end` (a read
error panics via `expect` and is outside this model). -/
def get_log_content (logfile : List Char) (openResult : Option (List Nat)) :
    Except WtgError (List Char) :=
  match openResult with
  | none => .error (.LogFileOpenError logfile)
  | some bytes => .ok (utf8Lossy bytes)

/-- `session.rs` `extract_context_from_log` (lines 244-272): read the log
file, then extract the context from its content (the `?` operator on
`get_log_content`). -/
def extract_context_from_log (logfile : List Char)
    (openResult : Option (List Nat)) : Except WtgError (List Char) :=
  match get_log_content logfile openResult with
  | .error e => .error e
  | .ok content => extract_context_from_content logfile content

lemma extract_ok_or_noCommandRun (logfile content : List Char) :
    (∃ s, extract_context_from_content logfile content = Except.ok s)
    ∨ extract_context_from_content logfile content =
        Except.error (WtgError.NoCommandRun logfile) := by
  rcases h1 : rfind NEW_COMMAND_MSG content with _ | i
  · right
    simp only [extract_context_from_content, h1]
  · rcases h3 : rfind NEW_COMMAND_MSG (content.take i) with _ | j
    · right
      simp only [extract_context_from_content, h1, h3]
    · left
      simp only [extract_context_from_content, h1, h3]
      exact ⟨_, rfl⟩

/-- C10: for every byte sequence in the log file, extraction either
returns a string or fails with the open-failure or fewer-than-two-markers
conditions — never with a decoding error, because `utf8Lossy` (the model
of `String::from_utf8_lossy`) is a total function. -/
theorem c10_extraction_total (logfile : List Char)
    (openResult : Option (List Nat)) :
    (∃ s, extract_context_from_log logfile openResult = Except.ok s)
    ∨ extract_context_from_log logfile openResult =
        Except.error (WtgError.LogFileOpenError logfile)
    ∨ extract_context_from_log logfile openResult =
        Except.error (WtgError.NoCommandRun logfile) := by
  rcases openResult with _ | bytes
  · right
    left
    rfl
  · have h := extract_ok_or_noCommandRun logfile (utf8Lossy bytes)
    have hdef : extract_context_from_log logfile (some bytes) =
        extract_context_from_content logfile (utf8Lossy bytes) := rfl
    rcases h with ⟨s, hs⟩ | herr
    · left
      exact ⟨s, by rw [hdef, hs]⟩
    · right
      right
      rw [hdef, herr]

/-! ### Claim C4: window-size query -/

/-- `nix::pty::Winsize` / `libc::winsize`. -/
structure Winsize where
  ws_row : Nat
  ws_col : Nat
  ws_xpixel : Nat
  ws_ypixel : Nat
deriving DecidableEq

/-- The initial buffer contents of `get_parent_winsize` (`session.rs`
lines 61-66): 24 rows × 80 columns. -/
def initialWinsizeBuffer : Winsize := ⟨24, 80, 0, 0⟩

/-- Outcome of `ioctl(fd, TIOCGWINSZ, &mut ws)`: on success the kernel
overwrites the buffer with the real geometry; on failure it returns -1 and
the buffer keeps its initial contents. -/
inductive IoctlOutcome where
  | ok (filled : Winsize)
  | err
deriving DecidableEq

/-- `session.rs` `get_parent_winsize` (lines 54-79): on ioctl success the
filled buffer is repackaged and returned; on ioctl failure the function
does not return — it panics ("Failed to get window size using ioctl"),
modelled as `none`. -/
def get_parent_winsize : IoctlOutcome → Option Winsize
  | .ok filled =>
    some ⟨filled.ws_row, filled.ws_col, filled.ws_xpixel, filled.ws_ypixel⟩
  | .err => none

/-- C4 counterexample: when the geometry query fails, `get_parent_winsize`
does not return the fixed 24×80 fallback (nor anything else) — the code
panics at that point. -/
theorem c4_counterexample :
    get_parent_winsize IoctlOutcome.err = none
    ∧ get_parent_winsize IoctlOutcome.err ≠ some initialWinsizeBuffer := by
  constructor
  · rfl
  · decide

/-- C4 (amended): the window-size query returns the queried geometry on
success and panics (returns nothing) when the ioctl fails; the 24×80 value
is only the initial content of the buffer handed to the ioctl, not a
fallback return value, so a session cannot start when geometry is
unavailable. -/
theorem c4_amended_panic :
    (∀ ws : Winsize, get_parent_winsize (IoctlOutcome.ok ws) = some ws)
    ∧ get_parent_winsize IoctlOutcome.err = none := by
  constructor
  · intro ws
    rfl
  · rfl

/-! ### Claim C7: raw-mode guard -/

/-- `nix::sys::termios::Termios`: the line-discipline settings, compared
bit-for-bit (flag words as numbers, control characters as a list). -/
structure Termios where
  input_flags : Nat
  output_flags : Nat
  control_flags : Nat
  local_flags : Nat
  control_chars : List Nat
deriving DecidableEq

/-- Clear the bits of `mask` in `x`: since `x &&& mask` has only bits of
`x`, the subtraction equals `x &&& ~mask` at any finite width. -/
def clearBits (x mask : Nat) : Nat := x - (x &&& mask)

/-- `cfmakeraw` (linux flag values, octal): clears
IGNBRK|BRKINT|PARMRK|ISTRIP|INLCR|IGNCR|ICRNL|IXON in the input flags,
OPOST in the output flags, ECHO|ECHONL|ICANON|ISIG|IEXTEN in the local
flags, clears CSIZE|PARENB and sets CS8 in the control flags. -/
def cfmakeraw (t : Termios) : Termios :=
  { t with
    input_flags :=
      clearBits t.input_flags
        (0o1 ||| 0o2 ||| 0o10 ||| 0o40 ||| 0o100 ||| 0o200 ||| 0o400 ||| 0o2000)
    output_flags := clearBits t.output_flags 0o1
    local_flags :=
      clearBits t.local_flags (0o10 ||| 0o100 ||| 0o2 ||| 0o1 ||| 0o100000)
    control_flags := clearBits t.control_flags (0o60 ||| 0o400) ||| 0o60 }

/-- `raw.local_flags.remove(LocalFlags::ECHO)` (`session.rs` line 41). -/
def removeEchoFlag (t : Termios) : Termios :=
  { t with local_flags := clearBits t.local_flags 0o10 }

/-- `RawModeGuard` (`session.rs` lines 27-36): `new` captures the current
settings via `tcgetattr` and stores them as `orig_termios`. -/
structure RawModeGuard where
  orig_termios : Termios

def RawModeGuard.new (current : Termios) : RawModeGuard := ⟨current⟩

/-- The terminal device as far as line-discipline settings are concerned:
`active` is whatever `tcsetattr(TCSANOW, ·)` last applied. -/
structure TerminalDevice where
  active : Termios

/-- `enable_raw_mode` (`session.rs` lines 38-43): clone the stored
original, `cfmakeraw` the clone, remove `ECHO`, apply it via `tcsetattr`.
The guard itself is untouched. -/
def enable_raw_mode (g : RawModeGuard) (_d : TerminalDevice) :
    TerminalDevice :=
  ⟨removeEchoFlag (cfmakeraw g.orig_termios)⟩

/-- `Drop for RawModeGuard` (`session.rs` lines 46-51): apply the stored
original settings via `tcsetattr`. -/
def dropRawModeGuard (g : RawModeGuard) (_d : TerminalDevice) :
    TerminalDevice :=
  ⟨g.orig_termios⟩

/-- C7: acquiring the guard over original settings `t0`, enabling raw mode
(which applies the modified clone to the device) and then releasing the
guard leaves the device with settings bit-for-bit equal to `t0`; the
raw-mode computation never mutates the stored snapshot. -/
theorem c7_raw_mode_restore (t0 : Termios) :
    (dropRawModeGuard (RawModeGuard.new t0)
        (enable_raw_mode (RawModeGuard.new t0) ⟨t0⟩)).active = t0
    ∧ (RawModeGuard.new t0).orig_termios = t0
    ∧ (enable_raw_mode (RawModeGuard.new t0) ⟨t0⟩).active =
        removeEchoFlag (cfmakeraw t0) :=
  ⟨rfl, rfl, rfl⟩

/-! ### Claim C8: query context source selection -/

/-- `session.rs` `run_query` (lines 275-294), context selection: the piped
stdin text is used verbatim when `isatty(stdin).unwrap_or(false)` is
false; otherwise the context is extracted from the log file.
`isattyResult` is the `nix::unistd::isatty` result (`none` = error,
absorbed by `unwrap_or(false)`). -/
def run_query_context (isattyResult : Option Bool) (piped : List Char)
    (logfile : List Char) (openResult : Option (List Nat)) :
    Except WtgError (List Char) :=
  if !(isattyResult.getD false) then .ok piped
  else extract_context_from_log logfile openResult

/-- C8: when standard input is not a terminal the piped text is returned
verbatim (independently of the log file, bypassing log reading and marker
extraction); when it is a terminal, the context is the marker extraction
from the log file; an `isatty` failure behaves like the non-terminal
case. -/
theorem c8_query_context_source (piped logfile : List Char)
    (openResult : Option (List Nat)) :
    run_query_context (some false) piped logfile openResult = Except.ok piped
    ∧ run_query_context (some true) piped logfile openResult =
        extract_context_from_log logfile openResult
    ∧ run_query_context none piped logfile openResult = Except.ok piped :=
  ⟨rfl, rfl, rfl⟩

/-! ### The `run_session` concurrency protocol (claims C1, C5, C6, C9) -/

/-- A chunk of raw bytes, as returned by one `read` on stdin. -/
abbrev Chunk := List Nat

/-- `session.rs` line 163: `b == b'\n' || b == b'\r'`. -/
def isBoundaryByte (b : Nat) : Bool := b == 10 || b == 13

/-- `buf[..n].iter().any(|&b| b == b'\n' || b == b'\r')`. -/
def containsBoundary (c : Chunk) : Bool := c.any isBoundaryByte

/-- One entry of the log file: the sentinel marker written by the boundary
listener, or a block of pty output appended by the output relay. Both
writers hold the log mutex around `write_all` + `flush`, so each entry is
one atomic append. -/
inductive LogEntry where
  | marker
  | output (bytes : Chunk)
deriving DecidableEq

/-- Program counter of the input-forwarder thread (`session.rs` lines
149-174), for the chunk at the head of `pending`: `ready` = about to scan
the chunk for boundary bytes; `waitAck` = sent "enter observed" on
`enter_tx` and blocked in `truncated_rx.recv()`; `writeChunk` = about to
`write_all` the chunk to the pty master. -/
inductive FwdPC where
  | ready
  | waitAck
  | writeChunk
deriving DecidableEq

/-- Program counter of the boundary-listener thread (`session.rs` lines
179-189): `waiting` = blocked in `enter_rx.recv()`; `gotEnter` = received
a signal, about to lock the log and append the marker; `wroteMarker` =
marker appended, about to send the ack on `truncated_tx`. -/
inductive LstPC where
  | waiting
  | gotEnter
  | wroteMarker
deriving DecidableEq

/-- Shared state of the forwarder, listener and relay threads: `pending`
holds the stdin chunks not yet forwarded (head = current), `enterCh` and
`ackCh` the queued messages of the two mpsc channels, `log` the appended
log entries, `pty` the chunks written to the pty master. -/
structure SysState where
  pending : List Chunk
  fpc : FwdPC
  lpc : LstPC
  enterCh : Nat
  ackCh : Nat
  log : List LogEntry
  pty : List Chunk
deriving DecidableEq

/-- Session start: no signals queued, empty log, nothing forwarded yet. -/
def initState (cs : List Chunk) : SysState :=
  ⟨cs, .ready, .waiting, 0, 0, [], []⟩

/-- Interleaved small-step semantics of the three threads of `run_session`
(input forwarder lines 149-174, boundary listener lines 179-189, output
relay lines 191-212). -/
inductive Step : SysState → SysState → Prop where
  | fwdBoundary (s : SysState) (c : Chunk) (rest : List Chunk)
      (h : s.pending = c :: rest) (hf : s.fpc = .ready)
      (hb : containsBoundary c = true) :
      Step s { s with fpc := .waitAck, enterCh := s.enterCh + 1 }
  | fwdNoBoundary (s : SysState) (c : Chunk) (rest : List Chunk)
      (h : s.pending = c :: rest) (hf : s.fpc = .ready)
      (hb : containsBoundary c = false) :
      Step s { s with fpc := .writeChunk }
  | fwdAck (s : SysState) (hf : s.fpc = .waitAck) (ha : 0 < s.ackCh) :
      Step s { s with fpc := .writeChunk, ackCh := s.ackCh - 1 }
  | fwdWrite (s : SysState) (c : Chunk) (rest : List Chunk)
      (h : s.pending = c :: rest) (hf : s.fpc = .writeChunk) :
      Step s { s with fpc := .ready, pending := rest, pty := s.pty ++ [c] }
  | lstRecv (s : SysState) (hl : s.lpc = .waiting) (he : 0 < s.enterCh) :
      Step s { s with lpc := .gotEnter, enterCh := s.enterCh - 1 }
  | lstMark (s : SysState) (hl : s.lpc = .gotEnter) :
      Step s { s with lpc := .wroteMarker, log := s.log ++ [.marker] }
  | lstAck (s : SysState) (hl : s.lpc = .wroteMarker) :
      Step s { s with lpc := .waiting, ackCh := s.ackCh + 1 }
  | relayOut (s : SysState) (bytes : Chunk) :
      Step s { s with log := s.log ++ [.output bytes] }

/-- Reachability from session start with stdin chunks `cs`. -/
def Reachable (cs : List Chunk) (s : SysState) : Prop :=
  Relation.ReflTransGen Step (initState cs) s

def LogEntry.isMarker : LogEntry → Bool
  | .marker => true
  | .output _ => false

/-- Number of sentinel markers in the log. -/
def countMarkers (log : List LogEntry) : Nat :=
  log.countP LogEntry.isMarker

/-- Number of chunks containing a boundary byte. -/
def countBoundaryChunks (l : List Chunk) : Nat :=
  l.countP containsBoundary

/-- Handshake tokens existing before the marker append: queued "enter
observed" signals, plus one if the listener has consumed such a signal but
not yet appended the marker. -/
def tokL (s : SysState) : Nat :=
  s.enterCh + (if s.lpc = LstPC.gotEnter then 1 else 0)

/-- Handshake tokens existing after the marker append: one if the listener
has appended the marker but not yet sent the ack, plus queued acks. -/
def tokR (s : SysState) : Nat :=
  s.ackCh + (if s.lpc = LstPC.wroteMarker then 1 else 0)

/-- The chunk at the head of `pending` contains a boundary byte. -/
def headBoundary (p : List Chunk) : Bool :=
  match p with
  | [] => false
  | c :: _ => containsBoundary c

/-- 1 when the forwarder is about to write a boundary chunk whose marker is
already in the log (handshake completed, chunk not yet in the pty). -/
def inFlight (s : SysState) : Nat :=
  if s.fpc = FwdPC.writeChunk ∧ headBoundary s.pending = true then 1 else 0

/-- Inductive invariant of the boundary-handshake protocol. -/
def Inv (cs : List Chunk) (s : SysState) : Prop :=
  (tokL s + tokR s = if s.fpc = FwdPC.waitAck then 1 else 0)
  ∧ countMarkers s.log = countBoundaryChunks s.pty + tokR s + inFlight s
  ∧ (s.fpc = FwdPC.waitAck → headBoundary s.pending = true)
  ∧ s.pty ++ s.pending = cs

lemma tok_zero {s : SysState} (h : tokL s + tokR s = 0) :
    s.enterCh = 0 ∧ s.ackCh = 0 ∧ s.lpc = LstPC.waiting := by
  rw [tokL, tokR] at h
  rcases hl : s.lpc
  · rw [hl] at h
    simp at h
    exact ⟨h.1, h.2, rfl⟩
  · rw [hl] at h
    simp at h
  · rw [hl] at h
    simp at h

lemma inv_init (cs : List Chunk) : Inv cs (initState cs) := by
  refine ⟨?_, ?_, ?_, ?_⟩
  · simp [tokL, tokR, initState]
  · simp [countMarkers, countBoundaryChunks, tokR, inFlight, initState]
  · intro h
    simp [initState] at h
  · simp [initState]

lemma headBoundary_eq {p : List Chunk} {c : Chunk} {rest : List Chunk}
    (h : p = c :: rest) : headBoundary p = containsBoundary c := by
  simp only [headBoundary, h]

lemma inFlight_ne {s : SysState} (h : s.fpc ≠ FwdPC.writeChunk) :
    inFlight s = 0 := by
  rw [inFlight, if_neg]
  rintro ⟨hc, -⟩
  exact h hc

lemma inv_step {cs : List Chunk} {s s' : SysState} (hinv : Inv cs s)
    (hstep : Step s s') : Inv cs s' := by
  obtain ⟨h1, h2, h3, h4⟩ := hinv
  cases hstep with
  | fwdBoundary c rest h hf hb =>
    have h1' : tokL s + tokR s = 0 := by rw [hf] at h1; simpa using h1
    obtain ⟨he, ha, hl⟩ := tok_zero h1'
    refine ⟨?_, ?_, ?_, ?_⟩
    · simp [tokL, tokR, he, ha, hl]
    · simp only [countMarkers, countBoundaryChunks, tokR, inFlight, headBoundary] at h2 ⊢
      simp [ha, hl, hf, h] at h2 ⊢
      omega
    · intro _
      simp only [headBoundary]
      simp [h, hb]
    · exact h4
  | fwdNoBoundary c rest h hf hb =>
    have h1' : tokL s + tokR s = 0 := by rw [hf] at h1; simpa using h1
    obtain ⟨he, ha, hl⟩ := tok_zero h1'
    refine ⟨?_, ?_, ?_, ?_⟩
    · simp [tokL, tokR, he, ha, hl]
    · simp only [countMarkers, countBoundaryChunks, tokR, inFlight, headBoundary] at h2 ⊢
      simp [ha, hl, hf, h, hb] at h2 ⊢
      omega
    · intro hcon
      simp at hcon
    · exact h4
  | fwdAck hf ha' =>
    have h1' : tokL s + tokR s = 1 := by rw [hf] at h1; simpa using h1
    have hcomp : s.enterCh = 0 ∧ s.ackCh = 1 ∧ s.lpc = LstPC.waiting := by
      rw [tokL, tokR] at h1'
      rcases hl : s.lpc
      · rw [hl] at h1'
        simp at h1'
        exact ⟨by omega, by omega, rfl⟩
      · rw [hl] at h1'
        simp at h1'
        exact absurd ha' (by omega)
      · rw [hl] at h1'
        simp at h1'
        exact absurd ha' (by omega)
    obtain ⟨he, hack, hl⟩ := hcomp
    have hhb : headBoundary s.pending = true := h3 hf
    refine ⟨?_, ?_, ?_, ?_⟩
    · simp [tokL, tokR, he, hack, hl]
    · simp only [countMarkers, countBoundaryChunks, tokR, inFlight] at h2 ⊢
      simp [hack, hl, hf, hhb] at h2 ⊢
      omega
    · intro hcon
      simp at hcon
    · exact h4
  | fwdWrite c rest h hf =>
    have h1' : tokL s + tokR s = 0 := by rw [hf] at h1; simpa using h1
    obtain ⟨he, ha, hl⟩ := tok_zero h1'
    refine ⟨?_, ?_, ?_, ?_⟩
    · simp [tokL, tokR, he, ha, hl]
    · simp only [countMarkers, countBoundaryChunks, tokR, inFlight, headBoundary] at h2 ⊢
      rcases hcb : containsBoundary c
      · simp [ha, hl, hf, h, hcb, List.countP_append, List.countP_cons] at h2 ⊢
        omega
      · simp [ha, hl, hf, h, hcb, List.countP_append, List.countP_cons] at h2 ⊢
        omega
    · intro hcon
      simp at hcon
    · show (s.pty ++ [c]) ++ rest = cs
      rw [h] at h4
      rw [List.append_assoc]
      simpa using h4
  | lstRecv hl he =>
    refine ⟨?_, ?_, ?_, ?_⟩
    · simp only [tokL, tokR] at h1 ⊢
      simp [hl] at h1 ⊢
      rcases hfp : s.fpc
      · simp [hfp] at h1 ⊢; omega
      · simp [hfp] at h1 ⊢; omega
      · simp [hfp] at h1 ⊢; omega
    · simp only [countMarkers, countBoundaryChunks, tokR, inFlight, headBoundary] at h2 ⊢
      simp [hl] at h2 ⊢
      omega
    · intro hw
      exact h3 hw
    · exact h4
  | lstMark hl =>
    have hfw : s.fpc = FwdPC.waitAck := by
      by_contra hne
      rw [if_neg hne] at h1
      obtain ⟨-, -, hw⟩ := tok_zero h1
      rw [hl] at hw
      cases hw
    have h1' : tokL s + tokR s = 1 := by rw [hfw] at h1; simpa using h1
    have hcomp : s.enterCh = 0 ∧ s.ackCh = 0 := by
      rw [tokL, tokR, hl] at h1'
      simp at h1'
      omega
    obtain ⟨he, ha⟩ := hcomp
    refine ⟨?_, ?_, ?_, ?_⟩
    · simp only [tokL, tokR]
      simp [he, ha, hfw]
    · simp only [countMarkers, countBoundaryChunks, tokR, inFlight, headBoundary] at h2 ⊢
      simp [ha, hl, hfw, List.countP_append, List.countP_cons, LogEntry.isMarker] at h2 ⊢
      omega
    · intro hw
      exact h3 hw
    · exact h4
  | lstAck hl =>
    have hfw : s.fpc = FwdPC.waitAck := by
      by_contra hne
      rw [if_neg hne] at h1
      obtain ⟨-, -, hw⟩ := tok_zero h1
      rw [hl] at hw
      cases hw
    have h1' : tokL s + tokR s = 1 := by rw [hfw] at h1; simpa using h1
    have hcomp : s.enterCh = 0 ∧ s.ackCh = 0 := by
      rw [tokL, tokR, hl] at h1'
      simp at h1'
      omega
    obtain ⟨he, ha⟩ := hcomp
    refine ⟨?_, ?_, ?_, ?_⟩
    · simp only [tokL, tokR]
      simp [he, ha, hfw]
    · simp only [countMarkers, countBoundaryChunks, tokR, inFlight, headBoundary] at h2 ⊢
      simp [ha, hl, hfw] at h2 ⊢
      omega
    · intro hw
      exact h3 hw
    · exact h4
  | relayOut bytes =>
    refine ⟨h1, ?_, ?_, h4⟩
    · simp only [countMarkers, countBoundaryChunks, tokR, inFlight, headBoundary] at h2 ⊢
      simp [List.countP_append, List.countP_cons, LogEntry.isMarker] at h2 ⊢
      omega
    · intro hw
      exact h3 hw

lemma inv_reachable {cs : List Chunk} {s : SysState} (h : Reachable cs s) :
    Inv cs s := by
  induction h with
  | refl => exact inv_init cs
  | tail _ hstep ih => exact inv_step ih hstep

/-! ### Claim C1 -/

/-- C1: in every reachable state of the session, every boundary-containing
chunk already written to the pty has a matching sentinel marker already in
the log — the blocking handshake (signal "enter observed", wait for the
listener to append the marker and acknowledge) forces the marker append to
happen strictly before the forwarder writes the chunk to the
pseudo-terminal. -/
theorem c1_marker_before_chunk (cs : List Chunk) (s : SysState)
    (hr : Reachable cs s) :
    countBoundaryChunks s.pty ≤ countMarkers s.log := by
  obtain ⟨-, h2, -, -⟩ := inv_reachable hr
  omega

/-- C1 witness: the full handshake execution for the single chunk `[10]`
(a line feed): signal, listener receives, appends the marker, acknowledges,
forwarder wakes and writes the chunk — in the resulting state the pty
holds one boundary chunk and the log one marker. -/
theorem c1_witness :
    countBoundaryChunks
        (SysState.mk [] FwdPC.ready LstPC.waiting 0 0 [LogEntry.marker]
          [[10]]).pty ≤
      countMarkers
        (SysState.mk [] FwdPC.ready LstPC.waiting 0 0 [LogEntry.marker]
          [[10]]).log := by
  apply c1_marker_before_chunk [[10]]
  have t0 : Reachable [[10]] (initState [[10]]) := Relation.ReflTransGen.refl
  have t1 := Relation.ReflTransGen.tail t0
    (Step.fwdBoundary (initState [[10]]) [10] [] rfl rfl rfl)
  have t2 := Relation.ReflTransGen.tail t1 (Step.lstRecv _ rfl (by decide))
  have t3 := Relation.ReflTransGen.tail t2 (Step.lstMark _ rfl)
  have t4 := Relation.ReflTransGen.tail t3 (Step.lstAck _ rfl)
  have t5 := Relation.ReflTransGen.tail t4 (Step.fwdAck _ rfl (by decide))
  exact Relation.ReflTransGen.tail t5 (Step.fwdWrite _ [10] [] rfl rfl)

/-! ### Claim C5 -/

/-- C5: from any reachable state in which the forwarder is about to process
a chunk with no line-feed and no carriage-return byte, no step of the
system appends a marker or leaves a signal on the enter channel (in
particular the forwarder sends no signal for that chunk), and the direct
path — proceed to the write, then write the chunk to the pty — is the
forwarder's available transition. -/
theorem c5_no_handshake_without_boundary (cs : List Chunk) (s s' : SysState)
    (c : Chunk) (rest : List Chunk) (hr : Reachable cs s)
    (hf : s.fpc = FwdPC.ready) (hp : s.pending = c :: rest)
    (hb : containsBoundary c = false) (hs' : Step s s') :
    (countMarkers s'.log = countMarkers s.log ∧ s'.enterCh = 0)
    ∧ Step s { s with fpc := FwdPC.writeChunk }
    ∧ Step { s with fpc := FwdPC.writeChunk }
        { s with fpc := FwdPC.ready, pending := rest, pty := s.pty ++ [c] } := by
  obtain ⟨h1, h2, h3, h4⟩ := inv_reachable hr
  have h1' : tokL s + tokR s = 0 := by rw [hf] at h1; simpa using h1
  obtain ⟨he, ha, hl⟩ := tok_zero h1'
  refine ⟨?_, ?_, ?_⟩
  · cases hs' with
    | fwdBoundary c' rest' h' hf' hb' =>
      rw [hp] at h'
      injection h' with hc hrest
      subst hc
      rw [hb] at hb'
      cases hb'
    | fwdNoBoundary c' rest' h' hf' hb' =>
      exact ⟨rfl, he⟩
    | fwdAck hf' ha' =>
      rw [hf] at hf'
      cases hf'
    | fwdWrite c' rest' h' hf' =>
      rw [hf] at hf'
      cases hf'
    | lstRecv hl' he' =>
      rw [he] at he'
      cases he'
    | lstMark hl' =>
      rw [hl] at hl'
      cases hl'
    | lstAck hl' =>
      rw [hl] at hl'
      cases hl'
    | relayOut bytes =>
      constructor
      · simp [countMarkers, List.countP_append, List.countP_cons,
          LogEntry.isMarker]
      · exact he
  · exact Step.fwdNoBoundary s c rest hp hf hb
  · exact Step.fwdWrite { s with fpc := FwdPC.writeChunk } c rest hp rfl

/-- C5 witness: the chunk `[97]` (the letter a, no boundary byte) at session
start: the only forwarder transition writes it to the pty directly, no step
from that state appends a marker or posts a signal. -/
theorem c5_witness :
    (countMarkers ({ initState [[97]] with fpc := FwdPC.writeChunk }).log =
        countMarkers (initState [[97]]).log
      ∧ ({ initState [[97]] with fpc := FwdPC.writeChunk }).enterCh = 0)
    ∧ Step (initState [[97]]) { initState [[97]] with fpc := FwdPC.writeChunk }
    ∧ Step { initState [[97]] with fpc := FwdPC.writeChunk }
        { initState [[97]] with fpc := FwdPC.ready, pending := [], pty := (initState [[97]]).pty ++ [[97]] } :=
  c5_no_handshake_without_boundary [[97]] (initState [[97]])
    { initState [[97]] with fpc := FwdPC.writeChunk } [97] []
    Relation.ReflTransGen.refl rfl rfl (by decide)
    (Step.fwdNoBoundary (initState [[97]]) [97] [] rfl rfl (by decide))

/-! ### Claim C6 -/

/-- Rust `std::fs::OpenOptions` flags. -/
structure OpenOptionsModel where
  readFlag : Bool
  writeFlag : Bool
  appendFlag : Bool
  truncateFlag : Bool
  createFlag : Bool
deriving DecidableEq

/-- `OpenOptions::new()`: every flag starts false. -/
def OpenOptionsModel.new : OpenOptionsModel :=
  ⟨false, false, false, false, false⟩

/-- `OpenOptions::append(b)`. -/
def OpenOptionsModel.appendSet (o : OpenOptionsModel) (b : Bool) :
    OpenOptionsModel :=
  { o with appendFlag := b }

/-- `OpenOptions::create(b)`. -/
def OpenOptionsModel.createSet (o : OpenOptionsModel) (b : Bool) :
    OpenOptionsModel :=
  { o with createFlag := b }

/-- `session.rs` lines 113-117:
`OpenOptions::new().append(true).create(true).open(path)`. -/
def sessionLogOpenOptions : OpenOptionsModel :=
  (OpenOptionsModel.new.appendSet true).createSet true

/-- C6: the session log is opened in append mode with no truncation, and
every transition of the session (marker insertion by the boundary listener,
output relaying, and all forwarder/channel steps) leaves the existing log
content as a prefix — bytes are only ever appended, never truncated,
seeked over or rewritten; a command's context is "cleared" only by
appending a new sentinel marker. -/
theorem c6_log_append_only (s s' : SysState) (h : Step s s') :
    s.log <+: s'.log
    ∧ sessionLogOpenOptions.appendFlag = true
    ∧ sessionLogOpenOptions.truncateFlag = false
    ∧ sessionLogOpenOptions.createFlag = true := by
  refine ⟨?_, rfl, rfl, rfl⟩
  cases h with
  | fwdBoundary c rest h hf hb => exact List.prefix_rfl
  | fwdNoBoundary c rest h hf hb => exact List.prefix_rfl
  | fwdAck hf ha => exact List.prefix_rfl
  | fwdWrite c rest h hf => exact List.prefix_rfl
  | lstRecv hl he => exact List.prefix_rfl
  | lstMark hl => exact List.prefix_append _ _
  | lstAck hl => exact List.prefix_rfl
  | relayOut bytes => exact List.prefix_append _ _

/-- C6 witness: the output relay appending one chunk to the empty session
log preserves the (empty) existing content as a prefix. -/
theorem c6_witness :
    (initState []).log <+:
        ({ initState [] with
            log := (initState []).log ++ [LogEntry.output [104]] }).log
    ∧ sessionLogOpenOptions.appendFlag = true
    ∧ sessionLogOpenOptions.truncateFlag = false
    ∧ sessionLogOpenOptions.createFlag = true :=
  c6_log_append_only (initState []) _ (Step.relayOut (initState []) [104])

/-! ### Claim C9 -/

/-- C9: when all stdin chunks have been forwarded and the forwarder is back
in its ready state, the log contains exactly one sentinel marker per
boundary-containing *chunk* — a chunk with several line-feed or
carriage-return bytes still contributes exactly one marker, because the
forwarder tests the chunk with a single `any` and runs at most one
handshake per chunk. -/
theorem c9_one_marker_per_chunk (cs : List Chunk) (s : SysState)
    (hr : Reachable cs s) (hdone : s.pending = [])
    (hf : s.fpc = FwdPC.ready) :
    countMarkers s.log = countBoundaryChunks cs := by
  obtain ⟨h1, h2, h3, h4⟩ := inv_reachable hr
  have h1' : tokL s + tokR s = 0 := by rw [hf] at h1; simpa using h1
  obtain ⟨he, ha, hl⟩ := tok_zero h1'
  have htokR : tokR s = 0 := by simp [tokR, ha, hl]
  have hifl : inFlight s = 0 := inFlight_ne (by rw [hf]; intro hc; cases hc)
  rw [hdone, List.append_nil] at h4
  rw [htokR, hifl, h4] at h2
  omega

/-- C9 witness: a single pasted chunk `[10, 13, 10]` holding three boundary
bytes runs exactly one handshake and yields exactly one marker. -/
theorem c9_witness :
    countMarkers
        (SysState.mk [] FwdPC.ready LstPC.waiting 0 0 [LogEntry.marker]
          [[10, 13, 10]]).log =
      countBoundaryChunks [[10, 13, 10]] := by
  apply c9_one_marker_per_chunk [[10, 13, 10]]
    (SysState.mk [] FwdPC.ready LstPC.waiting 0 0 [LogEntry.marker]
      [[10, 13, 10]]) ?_ rfl rfl
  have t0 : Reachable [[10, 13, 10]] (initState [[10, 13, 10]]) :=
    Relation.ReflTransGen.refl
  have t1 := Relation.ReflTransGen.tail t0
    (Step.fwdBoundary (initState [[10, 13, 10]]) [10, 13, 10] [] rfl rfl rfl)
  have t2 := Relation.ReflTransGen.tail t1 (Step.lstRecv _ rfl (by decide))
  have t3 := Relation.ReflTransGen.tail t2 (Step.lstMark _ rfl)
  have t4 := Relation.ReflTransGen.tail t3 (Step.lstAck _ rfl)
  have t5 := Relation.ReflTransGen.tail t4 (Step.fwdAck _ rfl (by decide))
  exact Relation.ReflTransGen.tail t5
    (Step.fwdWrite _ [10, 13, 10] [] rfl rfl)

end Wtg
